import Mathlib

/-!
Shallow embedding of `src/store/messages.ts` (a zustand chat store).

The store keeps a flat list of messages, an input field, a loading flag,
the id of the message currently receiving streamed text, and the id
tracked as "latest AI message".  External effects (uuidv4, Date.now,
the Gemini stream) are passed in as explicit oracle arguments:
`freshId` / `now` stand for the values the runtime would produce, and a
`StreamOutcome` lists the chunk texts the external stream yields,
together with whether it ends normally or by throwing.
-/

/-- The `sender` field: `'ai' | 'user'`. -/
inductive Sender where
  | ai : Sender
  | user : Sender
deriving DecidableEq, Repr

/-- The `Message` interface.  `parentId?: string | null` collapses
`null`/`undefined` to `none`; `isCode?: boolean` is `none` when the field
is absent (as in the message created by `sendToGeminiStream`) and
`some b` when present.  `timestamp: Date` is modelled as a `Nat`. -/
structure Message where
  id : String
  text : String
  sender : Sender
  parentId : Option String := none
  timestamp : Nat
  isCode : Option Bool := none
deriving DecidableEq, Repr

instance : Inhabited Message := ⟨{ id := "", text := "", sender := .user, timestamp := 0 }⟩

/-- The argument of `addMessage`, `Partial<Message>`: every field may be
absent.  For `parentId` the partial type is `string | null | undefined`,
hence `Option (Option String)`. -/
structure MessageData where
  id : Option String := none
  text : Option String := none
  sender : Option Sender := none
  parentId : Option (Option String) := none
  timestamp : Option Nat := none
  isCode : Option Bool := none
deriving DecidableEq, Repr

/-- The slice of the store state the claims are about (`showModal`,
`isFocused` and the setters carry over unchanged and are included for
completeness). -/
structure StoreState where
  messages : List Message := []
  input : String := ""
  showModal : Bool := false
  isFocused : Bool := false
  isLoading : Bool := false
  currentStreamingMessage : Option String := none
  latestAIMessageId : Option String := none
deriving DecidableEq, Repr

/-- The store's initial state (the literal fields of the `create` call). -/
def initStore : StoreState := {}

/-! ### `beautifyPlainText`

`beautifyPlainText` applies two global regex substitutions:
`text.replace(/\*\*(.*?)\*\*/g, '$1')` then `.replace(/\*(.*?)\*/g, '$1')`.
We embed the regex semantics directly: scanning left to right, at each
position where the delimiter `d` occurs the engine lazily searches for
the next occurrence of `d` with no newline in between (`.` matches any
character except `'\n'`); on success the delimiters are dropped and the
scan resumes after the closing delimiter, on failure the scan advances
one character. -/

/-- Lazy search for the closing delimiter `d`: returns the content before
the first occurrence of `d` and the remainder after it, failing if a
newline (which `.` cannot match) or the end of input is reached first. -/
def findClose (d : List Char) : List Char → Option (List Char × List Char)
  | [] => none
  | c :: cs =>
      if d.isPrefixOf (c :: cs) then some ([], (c :: cs).drop d.length)
      else if c = '\n' then none
      else match findClose d cs with
           | some (content, rest) => some (c :: content, rest)
           | none => none

/-- One global-replace pass, fuel-bounded (each step consumes at least one
input character, so fuel `s.length` is always enough). -/
def replacePairs (d : List Char) : Nat → List Char → List Char
  | 0, s => s
  | _ + 1, [] => []
  | fuel + 1, c :: cs =>
      if d.isPrefixOf (c :: cs) then
        match findClose d ((c :: cs).drop d.length) with
        | some (content, rest) => content ++ replacePairs d fuel rest
        | none => c :: replacePairs d fuel cs
      else c :: replacePairs d fuel cs

/-- `beautifyPlainText`: strip paired `**` emphasis, then paired `*`. -/
def beautifyPlainText (text : String) : String :=
  let step1 := replacePairs ['*', '*'] text.data.length text.data
  let step2 := replacePairs ['*'] step1.length step1
  String.mk step2

/-! ### `addMessage` -/

/-- JavaScript truthiness of the `||` defaults in `addMessage`:
`messageData.id || uuidv4()` regenerates when `id` is absent or `""`;
`messageData.parentId || null` collapses `undefined`, `null` and `""` to
`null`; a `Date` object is always truthy, `false || false` is `false`,
and `s || ''` equals `s` for every string `s`. -/
def addMessage (st : StoreState) (messageData : MessageData)
    (freshId : String) (now : Nat) : StoreState × Message :=
  let message : Message :=
    { id := match messageData.id with
            | some s => if s = "" then freshId else s
            | none => freshId
      text := messageData.text.getD ""
      sender := messageData.sender.getD .user
      timestamp := messageData.timestamp.getD now
      isCode := some (messageData.isCode.getD false)
      parentId := match messageData.parentId with
                  | some (some s) => if s = "" then none else some s
                  | _ => none }
  ({ st with
      messages := st.messages ++ [message],
      latestAIMessageId :=
        if message.sender = .user then some message.id else st.latestAIMessageId },
   message)

/-! ### `sendToGeminiStream` -/

/-- What the external Gemini stream does: either it yields the listed
chunk texts and completes normally, or it yields them and then throws
(`err []` covers a throw during submission, before any chunk arrives). -/
inductive StreamOutcome where
  | ok : List String → StreamOutcome
  | err : List String → StreamOutcome
deriving DecidableEq, Repr

/-- The per-chunk `set`: every message whose id equals
`state.currentStreamingMessage` gets the beautified chunk appended to its
text (comparison with `null` is always false, hence `some m.id = ...`). -/
def streamChunk (st : StoreState) (textChunk : String) : StoreState :=
  { st with
      messages := st.messages.map fun msg =>
        if some msg.id = st.currentStreamingMessage then
          { msg with text := msg.text ++ beautifyPlainText textChunk }
        else msg }

/-- The `catch` branch: the streaming message's text is replaced wholesale
by the fixed error string. -/
def streamError (st : StoreState) : StoreState :=
  { st with
      messages := st.messages.map fun msg =>
        if some msg.id = st.currentStreamingMessage then
          { msg with text := "Error: Could not process your request." }
        else msg }

/-- `sendToGeminiStream`: first `set` appends the fresh AI message
(`aiMessageId` stands for `Date.now() + 1 + ''`, `now` for `new Date()`;
no `isCode` field, `parentId` taken from `latestAIMessageId`), marks it
as the streaming target and as the latest AI message; then the chunk loop
runs, the `catch` branch fires if the stream throws, and the `finally`
clears `isLoading` and `currentStreamingMessage`. -/
def sendToGeminiStream (st : StoreState) (aiMessageId : String) (now : Nat)
    (outcome : StreamOutcome) : StoreState :=
  let st1 : StoreState :=
    { st with
        messages := st.messages ++
          [{ id := aiMessageId, text := "", sender := .ai,
             timestamp := now, parentId := st.latestAIMessageId }],
        currentStreamingMessage := some aiMessageId,
        latestAIMessageId := some aiMessageId }
  let st2 : StoreState :=
    match outcome with
    | .ok chunks => chunks.foldl streamChunk st1
    | .err chunks => streamError (chunks.foldl streamChunk st1)
  { st2 with isLoading := false, currentStreamingMessage := none }

/-! ### `buildmessageTree`

The first pass fills a `Map` from id to a fresh node (so for duplicated
ids, the last `set` wins); the second pass pushes each message's node —
looked up by id — either into its parent node's `replies` or into
`roots`.  The nodes are shared mutable objects, so the resulting value is
in general a graph; we embed node identity as the index of the message
whose first-pass iteration created the surviving node, and record the
observable placement: the ordered list of pushes into `roots` and the
ordered list of `(parent node, child node)` pushes into `replies`. -/

/-- `nodeMap.get id` after the first pass, as a node index: the position
of the last message in the list whose `id` field equals `id`
(`Map.set` overwrites). -/
def nodeMapGetAux : List Message → String → Nat → Option Nat → Option Nat
  | [], _, _, acc => acc
  | m :: rest, id, i, acc =>
      nodeMapGetAux rest id (i + 1) (if m.id = id then some i else acc)

def nodeMapGet (messages : List Message) (id : String) : Option Nat :=
  nodeMapGetAux messages id 0 none

/-- The condition `message.parentId && nodeMap.has(message.parentId)`:
`parentId` must be truthy (neither absent, `null` nor `""`) and present
in the lookup map. -/
def parentFound (messages : List Message) (m : Message) : Bool :=
  match m.parentId with
  | some p => p ≠ "" && (nodeMapGet messages p).isSome
  | none => false

/-- The ordered record of the second pass's pushes. -/
structure Placement where
  roots : List Nat
  replies : List (Nat × Nat)
deriving DecidableEq, Repr

/-- One iteration of the second pass: push this message's node (always a
successful lookup, the source's `!`) into the parent node's `replies`
when the parent resolves, else into `roots`. -/
def placeOne (messages : List Message) (acc : Placement) (m : Message) : Placement :=
  let node := (nodeMapGet messages m.id).getD 0
  if parentFound messages m then
    { acc with replies :=
        acc.replies ++ [((nodeMapGet messages (m.parentId.getD "")).getD 0, node)] }
  else
    { acc with roots := acc.roots ++ [node] }

/-- `buildmessageTree`'s placement of nodes (second-pass `forEach`). -/
def buildPlacement (messages : List Message) : Placement :=
  messages.foldl (placeOne messages) ⟨[], []⟩

/-- What one iteration of the second pass contributes to `roots`. -/
def rootContrib (messages : List Message) (m : Message) : Option Nat :=
  if parentFound messages m then none
  else some ((nodeMapGet messages m.id).getD 0)

/-- What one iteration of the second pass contributes to `replies`. -/
def replyContrib (messages : List Message) (m : Message) : Option (Nat × Nat) :=
  if parentFound messages m then
    some ((nodeMapGet messages (m.parentId.getD "")).getD 0,
          (nodeMapGet messages m.id).getD 0)
  else none

/-- A two-message sequence sharing the id `"x"`. -/
def dupMsgs : List Message :=
  [{ id := "x", text := "a", sender := .user, timestamp := 0 },
   { id := "x", text := "b", sender := .user, timestamp := 0 }]

/-- A three-message thread: a root, a reply to it, and a message whose
parent id does not resolve. -/
def exTreeMsgs : List Message :=
  [{ id := "a", text := "", sender := .user, timestamp := 0 },
   { id := "b", text := "", sender := .ai, parentId := some "a", timestamp := 1 },
   { id := "c", text := "", sender := .user, parentId := some "zz", timestamp := 2 }]

/-! ### `sendMessage` and `handleAIResponse` -/

/-- JavaScript `String.prototype.trim()`: strip leading and trailing
whitespace (embedded structurally so that it computes). -/
def jsTrim (s : String) : String :=
  String.mk (((s.data.dropWhile Char.isWhitespace).reverse.dropWhile Char.isWhitespace).reverse)

/-- `handleAIResponse`: no-op when the text trims to empty; otherwise
appends the user message via `addMessage` (with `uid`/`now` the oracle
values for that call), sets `isLoading`, and runs the stream.  The
surrounding `try`/`catch` is unreachable in this model because the
embedded `sendToGeminiStream` already handles stream failure internally
and never throws. -/
def handleAIResponse (st : StoreState) (userMessage : String)
    (uid : String) (now : Nat) (aiMessageId : String) (now2 : Nat)
    (outcome : StreamOutcome) : StoreState :=
  if jsTrim userMessage = "" then st
  else
    let r := addMessage st
      { sender := some .user, text := some userMessage, isCode := some false } uid now
    let st2 := { r.1 with isLoading := true }
    sendToGeminiStream st2 aiMessageId now2 outcome

/-- `sendMessage`: returns immediately when `input.trim()` is falsy;
otherwise clears the input and forwards the original (untrimmed) input
text to `handleAIResponse`. -/
def sendMessage (st : StoreState) (uid : String) (now : Nat)
    (aiMessageId : String) (now2 : Nat) (outcome : StreamOutcome) : StoreState :=
  if jsTrim st.input = "" then st
  else
    let messageText := st.input
    let st1 := { st with input := "" }
    handleAIResponse st1 messageText uid now aiMessageId now2 outcome

/-- Lookup of a message by id (first match, as the UI would find it). -/
def findMsg (messages : List Message) (id : String) : Option Message :=
  messages.find? fun m => m.id = id

/-- All fields except `text` agree (used to state frame properties of the
streaming updates). -/
def sameExceptText (a b : Message) : Prop :=
  b.id = a.id ∧ b.sender = a.sender ∧ b.parentId = a.parentId ∧
  b.timestamp = a.timestamp ∧ b.isCode = a.isCode

/-- Accumulate the cleaned chunks onto a text, exactly as the chunk loop
does. -/
def appendChunks (t : String) (chunks : List String) : String :=
  chunks.foldl (fun acc c => acc ++ beautifyPlainText c) t

/-- The AI message appended by the first `set` of `sendToGeminiStream`. -/
def streamSeed (st : StoreState) (aiMessageId : String) (now : Nat) : Message :=
  { id := aiMessageId, text := "", sender := .ai,
    timestamp := now, parentId := st.latestAIMessageId }

/-! ### Traces of store operations (for the id-uniqueness claim) -/

/-- One store operation of the kinds the uniqueness claim ranges over,
with its oracle values attached. -/
inductive Op where
  | add : MessageData → String → Nat → Op
  | stream : String → Nat → StreamOutcome → Op
deriving DecidableEq, Repr

def applyOp (st : StoreState) : Op → StoreState
  | .add p freshId now => (addMessage st p freshId now).1
  | .stream aiMessageId now outcome => sendToGeminiStream st aiMessageId now outcome

def runOps : StoreState → List Op → StoreState
  | st, [] => st
  | st, op :: ops => runOps (applyOp st op) ops

/-- The id the operation appends to the sequence. -/
def insertedId (_st : StoreState) : Op → String
  | .add p freshId _ =>
      (match p.id with
       | some s => if s = "" then freshId else s
       | none => freshId)
  | .stream aiMessageId _ _ => aiMessageId

/-- Every operation of the trace inserts an id not already present. -/
def freshRun : StoreState → List Op → Bool
  | _, [] => true
  | st, op :: ops =>
      !(decide (insertedId st op ∈ st.messages.map Message.id)) &&
        freshRun (applyOp st op) ops

/-! ## Lemmas about the streaming loop -/

theorem appendChunks_cons (t c : String) (cs : List String) :
    appendChunks t (c :: cs) = appendChunks (t ++ beautifyPlainText c) cs := rfl

theorem foldl_str_append (l : List String) :
    ∀ x : String, l.foldl (· ++ ·) x = x ++ l.foldl (· ++ ·) "" := by
  induction l with
  | nil => intro x; simp
  | cons a t ih =>
      intro x
      simp only [List.foldl_cons]
      rw [ih (x ++ a), ih ("" ++ a)]
      simp [String.append_assoc]

theorem appendChunks_eq_join (chunks : List String) :
    ∀ t : String, appendChunks t chunks = t ++ String.join (chunks.map beautifyPlainText) := by
  induction chunks with
  | nil => intro t; simp [appendChunks, String.join]
  | cons c cs ih =>
      intro t
      rw [appendChunks_cons, ih]
      show _ = t ++ List.foldl (· ++ ·) "" _
      simp only [List.map_cons, List.foldl_cons]
      rw [foldl_str_append _ ("" ++ beautifyPlainText c)]
      simp [String.append_assoc, String.join]

theorem foldl_streamChunk (chunks : List String) (st : StoreState) :
    chunks.foldl streamChunk st =
      { st with messages := st.messages.map fun msg =>
          if some msg.id = st.currentStreamingMessage then
            { msg with text := appendChunks msg.text chunks }
          else msg } := by
  induction chunks generalizing st with
  | nil =>
      simp only [List.foldl_nil]
      have h : (fun msg : Message =>
          if some msg.id = st.currentStreamingMessage then
            { msg with text := appendChunks msg.text [] } else msg) = fun msg => msg := by
        funext msg
        have he : ({ msg with text := appendChunks msg.text [] } : Message) = msg := rfl
        rw [he, ite_self]
      rw [h, List.map_id']
  | cons c cs ih =>
      simp only [List.foldl_cons]
      rw [ih]
      simp only [streamChunk, List.map_map]
      congr 1
      apply List.map_congr_left
      intro msg _
      simp only [Function.comp_apply]
      by_cases h : some msg.id = st.currentStreamingMessage
      · simp [h, appendChunks_cons]
      · simp [h]

theorem sendStream_messages_ok (st : StoreState) (aiMessageId : String) (now : Nat)
    (chunks : List String) :
    (sendToGeminiStream st aiMessageId now (.ok chunks)).messages =
      (st.messages ++ [streamSeed st aiMessageId now]).map
        (fun m : Message =>
          if m.id = aiMessageId then { m with text := appendChunks m.text chunks }
          else m) := by
  simp only [sendToGeminiStream, foldl_streamChunk, streamSeed, Option.some.injEq]

theorem sendStream_messages_err (st : StoreState) (aiMessageId : String) (now : Nat)
    (chunks : List String) :
    (sendToGeminiStream st aiMessageId now (.err chunks)).messages =
      (st.messages ++ [streamSeed st aiMessageId now]).map
        (fun m : Message =>
          if m.id = aiMessageId then
            { m with text := "Error: Could not process your request." }
          else m) := by
  simp only [sendToGeminiStream, foldl_streamChunk, streamError, streamSeed, List.map_map,
    Option.some.injEq]
  apply List.map_congr_left
  intro m _
  simp only [Function.comp_apply]
  by_cases h : m.id = aiMessageId
  · simp [h]
  · simp [h]

theorem findMsg_map_pres (l : List Message) (f : Message → Message)
    (hf : ∀ m, (f m).id = m.id) (id0 : String) :
    findMsg (l.map f) id0 = (findMsg l id0).map f := by
  unfold findMsg
  rw [List.find?_map]
  have h : ((fun m : Message => decide (m.id = id0)) ∘ f) =
      fun m : Message => decide (m.id = id0) := by
    funext m
    simp only [Function.comp_apply, hf]
  rw [h]

theorem findMsg_append_fresh (l : List Message) (m0 : Message) (id0 : String)
    (hid : m0.id = id0) (hfresh : ∀ m ∈ l, m.id ≠ id0) :
    findMsg (l ++ [m0]) id0 = some m0 := by
  unfold findMsg
  rw [List.find?_append]
  have h1 : l.find? (fun m => m.id = id0) = none := by
    rw [List.find?_eq_none]
    intro x hx
    simpa using hfresh x hx
  rw [h1]
  simp [List.find?, hid]

theorem findMsg_sendStream (st : StoreState) (aiMessageId : String) (now : Nat)
    (outcome : StreamOutcome)
    (hfresh : ∀ m ∈ st.messages, m.id ≠ aiMessageId) :
    findMsg (sendToGeminiStream st aiMessageId now outcome).messages aiMessageId =
      some { id := aiMessageId,
             text := match outcome with
                     | .ok chunks => appendChunks "" chunks
                     | .err _ => "Error: Could not process your request.",
             sender := .ai, timestamp := now, parentId := st.latestAIMessageId } := by
  have hseed : (streamSeed st aiMessageId now).id = aiMessageId := rfl
  cases outcome with
  | ok chunks =>
      rw [sendStream_messages_ok,
        findMsg_map_pres _ _
          (fun m : Message => by by_cases h : m.id = aiMessageId <;> simp [h]),
        findMsg_append_fresh _ _ _ hseed hfresh]
      simp [streamSeed]
  | err chunks =>
      rw [sendStream_messages_err,
        findMsg_map_pres _ _
          (fun m : Message => by by_cases h : m.id = aiMessageId <;> simp [h]),
        findMsg_append_fresh _ _ _ hseed hfresh]
      simp [streamSeed]

theorem str_empty_append (s : String) : "" ++ s = s := by
  cases s
  rfl

theorem forall₂_map_self {α β : Type} (R : α → β → Prop) (f : α → β) (l : List α)
    (h : ∀ a ∈ l, R a (f a)) : List.Forall₂ R l (l.map f) := by
  induction l with
  | nil => exact .nil
  | cons a t ih =>
      exact .cons (h a (by simp)) (ih fun x hx => h x (by simp [hx]))

/-! ## Claim theorems -/

/-- C2: after a normal completion of `sendToGeminiStream`, the streaming
message's text is the in-order concatenation of `beautifyPlainText`
(the transform stripping paired `**` and paired `*` emphasis markers)
applied to each fragment the stream yielded.  The hypothesis states that
the generated streaming-message id is not already in use, which is what
identifies "the streaming message". -/
theorem sendToGeminiStream_ok_text (st : StoreState) (aiMessageId : String) (now : Nat)
    (chunks : List String) (hfresh : ∀ m ∈ st.messages, m.id ≠ aiMessageId) :
    (findMsg (sendToGeminiStream st aiMessageId now (.ok chunks)).messages aiMessageId).map
        Message.text = some (String.join (chunks.map beautifyPlainText)) := by
  rw [findMsg_sendStream st aiMessageId now (.ok chunks) hfresh]
  simp [appendChunks_eq_join, str_empty_append]

/-- C2 witness: the fragment sequence `["Hel", "**lo** ", "*world*"]`
yields the text `"Hello world"`. -/
theorem sendToGeminiStream_ok_text_witness :
    (∀ m ∈ initStore.messages, m.id ≠ "100") ∧
    (findMsg (sendToGeminiStream initStore "100" 5
        (.ok ["Hel", "**lo** ", "*world*"])).messages "100").map Message.text
      = some "Hello world" :=
  ⟨fun m hm => absurd hm (List.not_mem_nil m),
   (sendToGeminiStream_ok_text initStore "100" 5 ["Hel", "**lo** ", "*world*"]
      (fun m hm => absurd hm (List.not_mem_nil m))).trans (by decide)⟩

/-- C5: if the stream throws at any point (including before the first
chunk), the streaming message's entire text is replaced by the fixed
error string, discarding any partially streamed fragments. -/
theorem sendToGeminiStream_err_text (st : StoreState) (aiMessageId : String) (now : Nat)
    (chunks : List String) (hfresh : ∀ m ∈ st.messages, m.id ≠ aiMessageId) :
    (findMsg (sendToGeminiStream st aiMessageId now (.err chunks)).messages aiMessageId).map
        Message.text = some "Error: Could not process your request." := by
  rw [findMsg_sendStream st aiMessageId now (.err chunks) hfresh]
  rfl

/-- C5 witness: a stream that throws after yielding the single fragment
`"part"` leaves the error string, not the partial fragment. -/
theorem sendToGeminiStream_err_text_witness :
    (∀ m ∈ initStore.messages, m.id ≠ "100") ∧
    (findMsg (sendToGeminiStream initStore "100" 5 (.err ["part"])).messages "100").map
        Message.text = some "Error: Could not process your request." ∧
    (findMsg (sendToGeminiStream initStore "100" 5 (.err ["part"])).messages "100").map
        Message.text ≠ some "part" :=
  ⟨fun m hm => absurd hm (List.not_mem_nil m),
   sendToGeminiStream_err_text initStore "100" 5 ["part"]
      (fun m hm => absurd hm (List.not_mem_nil m)),
   by
    rw [sendToGeminiStream_err_text initStore "100" 5 ["part"]
      (fun m hm => absurd hm (List.not_mem_nil m))]
    decide⟩

/-- C6: on every exit of `sendToGeminiStream` — normal completion or
throw — the `finally` block has cleared `isLoading` and
`currentStreamingMessage`. -/
theorem sendToGeminiStream_cleanup (st : StoreState) (aiMessageId : String) (now : Nat)
    (outcome : StreamOutcome) :
    (sendToGeminiStream st aiMessageId now outcome).isLoading = false ∧
    (sendToGeminiStream st aiMessageId now outcome).currentStreamingMessage = none :=
  ⟨rfl, rfl⟩

/-- C10: each per-chunk append and the failure-path replacement keep the
message list's length and order, keep every non-targeted message exactly
as it was, and change at most the `text` field of the targeted
message(s); `id`, `sender`, `parentId`, `timestamp` and `isCode` are
untouched. -/
theorem streamUpdate_frame (st : StoreState) (textChunk : String) :
    List.Forall₂
      (fun old new => sameExceptText old new ∧
        (some old.id ≠ st.currentStreamingMessage → new = old))
      st.messages (streamChunk st textChunk).messages ∧
    List.Forall₂
      (fun old new => sameExceptText old new ∧
        (some old.id ≠ st.currentStreamingMessage → new = old))
      st.messages (streamError st).messages := by
  constructor <;>
  · apply forall₂_map_self
    intro m _
    by_cases h : some m.id = st.currentStreamingMessage
    · exact ⟨by simp [h, sameExceptText], fun hn => absurd h hn⟩
    · simp [h, sameExceptText]

/-- C3 counterexample: appending an AI-sender message does NOT update
`latestAIMessageId` (it stays `none`, not the new id), while appending a
user-sender message DOES change it — the opposite of the claim. -/
theorem addMessage_tracker_counterexample :
    ((addMessage initStore { sender := some .ai } "7" 0).1.latestAIMessageId ≠
        some (addMessage initStore { sender := some .ai } "7" 0).2.id) ∧
    ((addMessage initStore { sender := some .user } "8" 0).1.latestAIMessageId ≠
        initStore.latestAIMessageId) := by
  decide

/-- C3 amended: `addMessage` updates `latestAIMessageId` to the new
message's id exactly when the appended message's sender is `user`, and
leaves it unchanged when the sender is `ai`. -/
theorem addMessage_tracker_amended (st : StoreState) (messageData : MessageData)
    (freshId : String) (now : Nat) :
    ((addMessage st messageData freshId now).2.sender = .user →
      (addMessage st messageData freshId now).1.latestAIMessageId =
        some (addMessage st messageData freshId now).2.id) ∧
    ((addMessage st messageData freshId now).2.sender = .ai →
      (addMessage st messageData freshId now).1.latestAIMessageId =
        st.latestAIMessageId) := by
  constructor <;> intro h <;> simp [addMessage] at h ⊢ <;> simp [h]

/-- C3 amended witness: a user message at one input, an AI message at
another. -/
theorem addMessage_tracker_amended_witness :
    ((addMessage initStore { sender := some .user } "u" 3).2.sender = .user ∧
      (addMessage initStore { sender := some .user } "u" 3).1.latestAIMessageId =
        some (addMessage initStore { sender := some .user } "u" 3).2.id) ∧
    ((addMessage initStore { sender := some .ai } "a" 4).2.sender = .ai ∧
      (addMessage initStore { sender := some .ai } "a" 4).1.latestAIMessageId =
        initStore.latestAIMessageId) :=
  ⟨⟨by decide,
    (addMessage_tracker_amended initStore { sender := some .user } "u" 3).1 (by decide)⟩,
   ⟨by decide,
    (addMessage_tracker_amended initStore { sender := some .ai } "a" 4).2 (by decide)⟩⟩

/-- C7: `addMessage {}` appends and returns a message whose id is the
freshly generated one, sender `user`, empty text, `isCode = false`,
`parentId = null`, and whose timestamp is the invocation time `now`
(hence at or after it). -/
theorem addMessage_defaults (st : StoreState) (freshId : String) (now : Nat) :
    (addMessage st {} freshId now).2 =
      { id := freshId, text := "", sender := .user, parentId := none,
        timestamp := now, isCode := some false } ∧
    (addMessage st {} freshId now).1.messages =
      st.messages ++ [(addMessage st {} freshId now).2] ∧
    now ≤ (addMessage st {} freshId now).2.timestamp :=
  ⟨rfl, rfl, Nat.le_refl _⟩

theorem sendStream_input (st : StoreState) (aiMessageId : String) (now : Nat)
    (outcome : StreamOutcome) :
    (sendToGeminiStream st aiMessageId now outcome).input = st.input := by
  cases outcome <;> simp [sendToGeminiStream, foldl_streamChunk, streamError]

theorem findMsg_sendStream_other (st : StoreState) (aiMessageId : String) (now : Nat)
    (outcome : StreamOutcome) (id0 : String) (hid : id0 ≠ aiMessageId) :
    findMsg (sendToGeminiStream st aiMessageId now outcome).messages id0 =
      findMsg st.messages id0 := by
  have hpres : ∀ g : String → String,
      findMsg ((st.messages ++ [streamSeed st aiMessageId now]).map
        (fun m : Message =>
          if m.id = aiMessageId then { m with text := g m.text } else m)) id0 =
      findMsg st.messages id0 := by
    intro g
    rw [findMsg_map_pres _ _
      (fun m : Message => by by_cases h : m.id = aiMessageId <;> simp [h])]
    unfold findMsg
    rw [List.find?_append]
    have hseed : List.find? (fun m => m.id = id0) [streamSeed st aiMessageId now] = none := by
      rw [List.find?_eq_none]
      intro x hx
      simp only [List.mem_singleton] at hx
      subst hx
      simpa [streamSeed] using Ne.symm hid
    rw [hseed, Option.or_none]
    cases hfind : List.find? (fun m => m.id = id0) st.messages with
    | none => rfl
    | some m0 =>
        have hm0 : m0.id = id0 := by simpa using List.find?_some hfind
        have : m0.id ≠ aiMessageId := hm0 ▸ hid
        simp [this]
  cases outcome with
  | ok chunks => rw [sendStream_messages_ok]; exact hpres (fun t => appendChunks t chunks)
  | err chunks =>
      rw [sendStream_messages_err]
      exact hpres (fun _ => "Error: Could not process your request.")

/-- C4 counterexample: with a previous AI turn `"a0"` tracked, appending
the user message `"u1"` and streaming the reply `"a2"` parents the reply
under the user message, not under `"a0"` as the claim states. -/
theorem handleAIResponse_parent_counterexample :
    ((findMsg (handleAIResponse { latestAIMessageId := some "a0" } "hi" "u1" 1 "a2" 2
        (.ok [])).messages "a2").map Message.parentId ≠ some (some "a0")) ∧
    ((findMsg (handleAIResponse { latestAIMessageId := some "a0" } "hi" "u1" 1 "a2" 2
        (.ok [])).messages "a2").map Message.parentId = some (some "u1")) := by
  decide

/-- C4 amended: the AI-sender message allocated by the streaming handler
inside `handleAIResponse` is parented to the id of the user message just
appended (because `addMessage` with sender `user` moves the tracker to
the user message first); AI turns therefore chain through the
intervening user turn rather than directly to the previous AI turn. -/
theorem handleAIResponse_parent_amended (st : StoreState)
    (userMessage uid : String) (now : Nat) (aiMessageId : String) (now2 : Nat)
    (outcome : StreamOutcome)
    (htrim : jsTrim userMessage ≠ "")
    (hfresh : ∀ m ∈ st.messages, m.id ≠ aiMessageId)
    (hne : uid ≠ aiMessageId) :
    (findMsg (handleAIResponse st userMessage uid now aiMessageId now2 outcome).messages
        aiMessageId).map Message.parentId = some (some uid) := by
  simp only [handleAIResponse, htrim, if_false, ite_false, if_neg htrim]
  have hfresh2 : ∀ m ∈ ({ (addMessage st
      { sender := some .user, text := some userMessage, isCode := some false } uid now).1
        with isLoading := true } : StoreState).messages, m.id ≠ aiMessageId := by
    intro m hm
    simp only [addMessage, List.mem_append, List.mem_singleton] at hm
    rcases hm with hm | hm
    · exact hfresh m hm
    · subst hm
      simpa using hne
  rw [findMsg_sendStream _ _ _ _ hfresh2]
  simp [addMessage]

/-- C4 amended witness. -/
theorem handleAIResponse_parent_amended_witness :
    (jsTrim "hi" ≠ "") ∧ ("u1" : String) ≠ "a2" ∧
    (∀ m ∈ ({ latestAIMessageId := some "a0" } : StoreState).messages, m.id ≠ "a2") ∧
    (findMsg (handleAIResponse { latestAIMessageId := some "a0" } "hi" "u1" 1 "a2" 2
        (.ok ["ok"])).messages "a2").map Message.parentId = some (some "u1") :=
  ⟨by decide, by decide, fun m hm => absurd hm (List.not_mem_nil m),
   handleAIResponse_parent_amended { latestAIMessageId := some "a0" } "hi" "u1" 1 "a2" 2
     (.ok ["ok"]) (by decide) (fun m hm => absurd hm (List.not_mem_nil m)) (by decide)⟩

/-- C8: with blank (empty or whitespace-only) input, `sendMessage`
returns at once and the whole state — message sequence and input field
included — is unchanged; with non-blank input it clears the input field
and forwards the original untrimmed text, so the appended user message
carries exactly `st.input`. -/
theorem sendMessage_spec (st : StoreState) (uid : String) (now : Nat)
    (aiMessageId : String) (now2 : Nat) (outcome : StreamOutcome)
    (hfresh : ∀ m ∈ st.messages, m.id ≠ uid)
    (hne : uid ≠ aiMessageId) :
    (jsTrim st.input = "" → sendMessage st uid now aiMessageId now2 outcome = st) ∧
    (jsTrim st.input ≠ "" →
      (sendMessage st uid now aiMessageId now2 outcome).input = "" ∧
      findMsg (sendMessage st uid now aiMessageId now2 outcome).messages uid =
        some { id := uid, text := st.input, sender := .user, parentId := none,
               timestamp := now, isCode := some false }) := by
  refine ⟨fun h => by simp [sendMessage, h], fun htrim => ?_⟩
  have hmsg : sendMessage st uid now aiMessageId now2 outcome =
      sendToGeminiStream
        { (addMessage { st with input := "" }
            { sender := some .user, text := some st.input, isCode := some false } uid now).1
          with isLoading := true } aiMessageId now2 outcome := by
    simp [sendMessage, handleAIResponse, htrim]
  rw [hmsg]
  constructor
  · rw [sendStream_input]
    rfl
  · rw [findMsg_sendStream_other _ _ _ _ _ hne]
    have happ : ({ (addMessage { st with input := "" }
        { sender := some .user, text := some st.input, isCode := some false } uid now).1
          with isLoading := true } : StoreState).messages =
        st.messages ++
          [{ id := uid, text := st.input, sender := .user, parentId := none,
             timestamp := now, isCode := some false }] := by
      simp [addMessage]
    rw [happ]
    exact findMsg_append_fresh _ _ _ rfl hfresh

/-- C8 witness: a whitespace-only input at one state, a non-blank input
at another. -/
theorem sendMessage_spec_witness :
    (jsTrim "   " = "" ∧
      sendMessage { input := "   " } "u" 0 "a" 1 (.ok []) = { input := "   " }) ∧
    (jsTrim "go" ≠ "" ∧
      (sendMessage { input := "go" } "u" 0 "a" 1 (.ok [])).input = "" ∧
      findMsg (sendMessage { input := "go" } "u" 0 "a" 1 (.ok [])).messages "u" =
        some { id := "u", text := "go", sender := .user, parentId := none,
               timestamp := 0, isCode := some false }) :=
  ⟨⟨by decide,
    (sendMessage_spec { input := "   " } "u" 0 "a" 1 (.ok [])
      (fun m hm => absurd hm (List.not_mem_nil m)) (by decide)).1 (by decide)⟩,
   ⟨by decide,
    (sendMessage_spec { input := "go" } "u" 0 "a" 1 (.ok [])
      (fun m hm => absurd hm (List.not_mem_nil m)) (by decide)).2 (by decide)⟩⟩

theorem map_id_pres (l : List Message) (f : Message → Message)
    (hf : ∀ m, (f m).id = m.id) : (l.map f).map Message.id = l.map Message.id := by
  rw [List.map_map]
  apply List.map_congr_left
  intro m _
  exact hf m

theorem idsAfterOp (st : StoreState) (op : Op) :
    (applyOp st op).messages.map Message.id =
      st.messages.map Message.id ++ [insertedId st op] := by
  cases op with
  | add p freshId now => simp [applyOp, addMessage, insertedId]
  | stream aiMessageId now outcome =>
      cases outcome with
      | ok chunks =>
          show (sendToGeminiStream st aiMessageId now (.ok chunks)).messages.map
              Message.id = _
          rw [sendStream_messages_ok,
            map_id_pres _ _
              (fun m : Message => by by_cases h : m.id = aiMessageId <;> simp [h])]
          simp [insertedId, streamSeed]
      | err chunks =>
          show (sendToGeminiStream st aiMessageId now (.err chunks)).messages.map
              Message.id = _
          rw [sendStream_messages_err,
            map_id_pres _ _
              (fun m : Message => by by_cases h : m.id = aiMessageId <;> simp [h])]
          simp [insertedId, streamSeed]

/-- C9 counterexample: two `addMessage` calls with the caller-supplied id
`"x"` leave two messages with the same id in the sequence. -/
theorem runOps_ids_counterexample :
    ¬ ((runOps initStore
        [.add { id := some "x" } "f1" 0,
         .add { id := some "x" } "f2" 1]).messages.map Message.id).Nodup := by
  decide

/-- C9 amended: after any sequence of `addMessage` calls and
`sendToGeminiStream` invocations, message ids stay pairwise distinct
PROVIDED each operation's inserted id (caller-supplied, uuid-generated,
or `Date.now()`-derived) is not already present in the sequence at the
time of the call — the code performs no duplicate check of its own. -/
theorem runOps_ids_nodup (st : StoreState) (ops : List Op)
    (hnd : (st.messages.map Message.id).Nodup)
    (hfr : freshRun st ops = true) :
    ((runOps st ops).messages.map Message.id).Nodup := by
  induction ops generalizing st with
  | nil => exact hnd
  | cons op ops ih =>
      simp only [freshRun, Bool.and_eq_true, Bool.not_eq_true',
        decide_eq_false_iff_not] at hfr
      obtain ⟨h1, h2⟩ := hfr
      show ((runOps (applyOp st op) ops).messages.map Message.id).Nodup
      apply ih (applyOp st op) ?_ h2
      rw [idsAfterOp]
      have hdisj : (st.messages.map Message.id).Disjoint [insertedId st op] := by
        intro a ha hb
        simp only [List.mem_singleton] at hb
        subst hb
        exact h1 ha
      exact hnd.append (List.nodup_singleton _) hdisj

/-- C9 amended witness: a fresh-id trace of one `addMessage` and one
`sendToGeminiStream`. -/
theorem runOps_ids_nodup_witness :
    ((initStore.messages.map Message.id).Nodup) ∧
    (freshRun initStore [.add {} "u1" 0, .stream "a1" 1 (.ok ["hi"])] = true) ∧
    ((runOps initStore [.add {} "u1" 0, .stream "a1" 1 (.ok ["hi"])]).messages.map
        Message.id).Nodup :=
  ⟨by decide, by decide,
   runOps_ids_nodup initStore [.add {} "u1" 0, .stream "a1" 1 (.ok ["hi"])]
     (by decide) (by decide)⟩

/-! ## Lemmas for `buildmessageTree` -/

theorem foldl_placeOne (messages : List Message) :
    ∀ (l : List Message) (acc : Placement),
      (l.foldl (placeOne messages) acc).roots =
        acc.roots ++ l.filterMap (rootContrib messages) ∧
      (l.foldl (placeOne messages) acc).replies =
        acc.replies ++ l.filterMap (replyContrib messages) := by
  intro l
  induction l with
  | nil => intro acc; simp
  | cons m t ih =>
      intro acc
      simp only [List.foldl_cons, List.filterMap_cons]
      by_cases h : parentFound messages m
      · obtain ⟨h1, h2⟩ := ih (placeOne messages acc m)
        refine ⟨?_, ?_⟩
        · rw [h1]
          simp [placeOne, rootContrib, h]
        · rw [h2]
          simp [placeOne, replyContrib, h]
      · obtain ⟨h1, h2⟩ := ih (placeOne messages acc m)
        refine ⟨?_, ?_⟩
        · rw [h1]
          simp [placeOne, rootContrib, h]
        · rw [h2]
          simp [placeOne, replyContrib, h]

theorem buildPlacement_roots (messages : List Message) :
    (buildPlacement messages).roots = messages.filterMap (rootContrib messages) := by
  have h := foldl_placeOne messages messages ⟨[], []⟩
  simpa [buildPlacement] using h.1

theorem buildPlacement_replies (messages : List Message) :
    (buildPlacement messages).replies = messages.filterMap (replyContrib messages) := by
  have h := foldl_placeOne messages messages ⟨[], []⟩
  simpa [buildPlacement] using h.2

theorem nodeMapGetAux_no_match (id : String) :
    ∀ (l : List Message) (i : Nat) (acc : Option Nat),
      (∀ m ∈ l, m.id ≠ id) → nodeMapGetAux l id i acc = acc := by
  intro l
  induction l with
  | nil => intro i acc _; rfl
  | cons m t ih =>
      intro i acc h
      simp only [nodeMapGetAux]
      rw [if_neg (h m (by simp))]
      exact ih _ _ fun x hx => h x (by simp [hx])

theorem nodeMapGetAux_nodup :
    ∀ (l : List Message) (i : Nat) (acc : Option Nat) (k : Nat) (hk : k < l.length),
      (l.map Message.id).Nodup →
      nodeMapGetAux l ((l.get ⟨k, hk⟩).id) i acc = some (i + k) := by
  intro l
  induction l with
  | nil => intro i acc k hk; simp at hk
  | cons m t ih =>
      intro i acc k hk hnd
      simp only [List.length_cons] at hk
      have hhead : m.id ∉ t.map Message.id := by
        have := hnd
        rw [List.map_cons, List.nodup_cons] at this
        exact this.1
      match k with
      | 0 =>
          show nodeMapGetAux (m :: t) m.id i acc = some (i + 0)
          simp only [nodeMapGetAux, if_pos rfl]
          rw [nodeMapGetAux_no_match]
          · simp
          · intro x hx heq
            exact hhead (heq ▸ List.mem_map_of_mem Message.id hx)
      | k + 1 =>
          show nodeMapGetAux (m :: t) ((t.get ⟨k, _⟩).id) i acc = some (i + (k + 1))
          simp only [nodeMapGetAux]
          have hne : m.id ≠ (t.get ⟨k, by omega⟩).id := by
            intro heq
            exact hhead (heq ▸ List.mem_map_of_mem Message.id (t.get_mem _ _))
          rw [if_neg hne]
          have htnd : (t.map Message.id).Nodup := by
            rw [List.map_cons, List.nodup_cons] at hnd
            exact hnd.2
          rw [ih (i + 1) acc k (by omega) htnd]
          congr 1
          omega

theorem nodeMapGet_nodup (messages : List Message)
    (hnd : (messages.map Message.id).Nodup) (k : Nat) (hk : k < messages.length) :
    nodeMapGet messages ((messages.get ⟨k, hk⟩).id) = some k := by
  have h := nodeMapGetAux_nodup messages 0 none k hk hnd
  simpa [nodeMapGet] using h

theorem nodeMapGet_mem (messages : List Message)
    (hnd : (messages.map Message.id).Nodup) (m : Message) (hm : m ∈ messages) :
    ∃ (k : Nat) (hk : k < messages.length),
      messages.get ⟨k, hk⟩ = m ∧ nodeMapGet messages m.id = some k := by
  obtain ⟨⟨k, hk⟩, hget⟩ := List.mem_iff_get.mp hm
  refine ⟨k, hk, hget, ?_⟩
  rw [← hget]
  exact nodeMapGet_nodup messages hnd k hk

theorem count_rootContrib (messages : List Message)
    (hnd : (messages.map Message.id).Nodup) (i : Nat) (hi : i < messages.length) :
    (messages.filterMap (rootContrib messages)).count i =
      if parentFound messages (messages.get ⟨i, hi⟩) = true then 0 else 1 := by
  rw [List.count_filterMap]
  by_cases hp : parentFound messages (messages.get ⟨i, hi⟩) = true
  · rw [if_pos hp]
    refine List.countP_eq_zero.mpr ?_
    intro m hm
    simp only [beq_iff_eq]
    intro heq
    obtain ⟨k, hk, hget, hnode⟩ := nodeMapGet_mem messages hnd m hm
    unfold rootContrib at heq
    by_cases hpm : parentFound messages m = true
    · rw [if_pos hpm] at heq
      exact Option.noConfusion heq
    · rw [if_neg hpm, hnode] at heq
      simp only [Option.getD_some, Option.some.injEq] at heq
      have heq' := heq.symm
      subst heq'
      have hget' : messages.get ⟨i, hi⟩ = m := hget
      rw [hget'] at hp
      exact hpm hp
  · rw [if_neg hp]
    have hcongr : List.countP (fun a => rootContrib messages a == some i) messages =
        List.countP (fun a => a == messages.get ⟨i, hi⟩) messages := by
      apply List.countP_congr
      intro m hm
      simp only [beq_iff_eq]
      constructor
      · intro heq
        obtain ⟨k, hk, hget, hnode⟩ := nodeMapGet_mem messages hnd m hm
        unfold rootContrib at heq
        by_cases hpm : parentFound messages m = true
        · rw [if_pos hpm] at heq
          exact Option.noConfusion heq
        · rw [if_neg hpm, hnode] at heq
          simp only [Option.getD_some, Option.some.injEq] at heq
          have heq' := heq.symm
          subst heq'
          have hget' : messages.get ⟨i, hi⟩ = m := hget
          rw [hget']
      · intro heq
        subst heq
        unfold rootContrib
        rw [if_neg hp, nodeMapGet_nodup messages hnd i hi]
        rfl
    rw [hcongr]
    exact List.count_eq_one_of_mem (List.Nodup.of_map Message.id hnd)
      (messages.get_mem _ _)

theorem count_replyContrib (messages : List Message)
    (hnd : (messages.map Message.id).Nodup) (i : Nat) (hi : i < messages.length)
    (j : Nat) :
    (messages.filterMap (replyContrib messages)).count (j, i) =
      if parentFound messages (messages.get ⟨i, hi⟩) = true ∧
         (nodeMapGet messages ((messages.get ⟨i, hi⟩).parentId.getD "")).getD 0 = j
      then 1 else 0 := by
  rw [List.count_filterMap]
  by_cases hc : parentFound messages (messages.get ⟨i, hi⟩) = true ∧
      (nodeMapGet messages ((messages.get ⟨i, hi⟩).parentId.getD "")).getD 0 = j
  · rw [if_pos hc]
    have hcongr : List.countP (fun a => replyContrib messages a == some (j, i)) messages =
        List.countP (fun a => a == messages.get ⟨i, hi⟩) messages := by
      apply List.countP_congr
      intro m hm
      simp only [beq_iff_eq]
      constructor
      · intro heq
        obtain ⟨k, hk, hget, hnode⟩ := nodeMapGet_mem messages hnd m hm
        unfold replyContrib at heq
        by_cases hpm : parentFound messages m = true
        · rw [if_pos hpm, hnode] at heq
          simp only [Option.getD_some, Option.some.injEq, Prod.mk.injEq] at heq
          obtain ⟨h1, h2⟩ := heq
          have h2' := h2.symm
          subst h2'
          have hget' : messages.get ⟨i, hi⟩ = m := hget
          rw [hget']
        · rw [if_neg hpm] at heq
          exact Option.noConfusion heq
      · intro heq
        subst heq
        unfold replyContrib
        rw [if_pos hc.1, nodeMapGet_nodup messages hnd i hi]
        simp only [Option.getD_some, Option.some.injEq, Prod.mk.injEq]
        exact ⟨hc.2, trivial⟩
    rw [hcongr]
    exact List.count_eq_one_of_mem (List.Nodup.of_map Message.id hnd)
      (messages.get_mem _ _)
  · rw [if_neg hc]
    refine List.countP_eq_zero.mpr ?_
    intro m hm
    simp only [beq_iff_eq]
    intro heq
    obtain ⟨k, hk, hget, hnode⟩ := nodeMapGet_mem messages hnd m hm
    unfold replyContrib at heq
    by_cases hpm : parentFound messages m = true
    · rw [if_pos hpm, hnode] at heq
      simp only [Option.getD_some, Option.some.injEq, Prod.mk.injEq] at heq
      obtain ⟨h1, h2⟩ := heq
      have h2' := h2.symm
      subst h2'
      have hget' : messages.get ⟨i, hi⟩ = m := hget
      apply hc
      rw [hget']
      exact ⟨hpm, h1⟩
    · rw [if_neg hpm] at heq
      exact Option.noConfusion heq

theorem count_replySnd (messages : List Message)
    (hnd : (messages.map Message.id).Nodup) (i : Nat) (hi : i < messages.length) :
    ((messages.filterMap (replyContrib messages)).map Prod.snd).count i =
      if parentFound messages (messages.get ⟨i, hi⟩) = true then 1 else 0 := by
  rw [List.map_filterMap, List.count_filterMap]
  by_cases hp : parentFound messages (messages.get ⟨i, hi⟩) = true
  · rw [if_pos hp]
    have hcongr : List.countP
        (fun a => (replyContrib messages a).map Prod.snd == some i) messages =
        List.countP (fun a => a == messages.get ⟨i, hi⟩) messages := by
      apply List.countP_congr
      intro m hm
      simp only [beq_iff_eq]
      constructor
      · intro heq
        obtain ⟨k, hk, hget, hnode⟩ := nodeMapGet_mem messages hnd m hm
        unfold replyContrib at heq
        by_cases hpm : parentFound messages m = true
        · rw [if_pos hpm, hnode] at heq
          simp only [Option.map_some', Option.getD_some, Option.some.injEq] at heq
          have heq' := heq.symm
          subst heq'
          have hget' : messages.get ⟨i, hi⟩ = m := hget
          rw [hget']
        · rw [if_neg hpm] at heq
          exact Option.noConfusion heq
      · intro heq
        subst heq
        unfold replyContrib
        rw [if_pos hp, nodeMapGet_nodup messages hnd i hi]
        rfl
    rw [hcongr]
    exact List.count_eq_one_of_mem (List.Nodup.of_map Message.id hnd)
      (messages.get_mem _ _)
  · rw [if_neg hp]
    refine List.countP_eq_zero.mpr ?_
    intro m hm
    simp only [beq_iff_eq]
    intro heq
    obtain ⟨k, hk, hget, hnode⟩ := nodeMapGet_mem messages hnd m hm
    unfold replyContrib at heq
    by_cases hpm : parentFound messages m = true
    · rw [if_pos hpm, hnode] at heq
      simp only [Option.map_some', Option.getD_some, Option.some.injEq] at heq
      have heq' := heq.symm
      subst heq'
      have hget' : messages.get ⟨i, hi⟩ = m := hget
      rw [hget'] at hp
      exact hp hpm
    · rw [if_neg hpm] at heq
      exact Option.noConfusion heq

theorem rootContrib_some (messages : List Message)
    (hnd : (messages.map Message.id).Nodup) (k : Nat) (hk : k < messages.length)
    (x : Nat) (hx : rootContrib messages (messages.get ⟨k, hk⟩) = some x) : x = k := by
  unfold rootContrib at hx
  by_cases hp : parentFound messages (messages.get ⟨k, hk⟩) = true
  · rw [if_pos hp] at hx
    exact Option.noConfusion hx
  · rw [if_neg hp, nodeMapGet_nodup messages hnd k hk] at hx
    simp only [Option.getD_some, Option.some.injEq] at hx
    exact hx.symm

theorem replyContribSnd_some (messages : List Message)
    (hnd : (messages.map Message.id).Nodup) (k : Nat) (hk : k < messages.length)
    (x : Nat)
    (hx : (replyContrib messages (messages.get ⟨k, hk⟩)).map Prod.snd = some x) :
    x = k := by
  unfold replyContrib at hx
  by_cases hp : parentFound messages (messages.get ⟨k, hk⟩) = true
  · rw [if_pos hp, nodeMapGet_nodup messages hnd k hk] at hx
    simp only [Option.map_some', Option.getD_some, Option.some.injEq] at hx
    exact hx.symm
  · rw [if_neg hp] at hx
    exact Option.noConfusion hx

theorem pairwise_rootContrib (messages : List Message)
    (hnd : (messages.map Message.id).Nodup) :
    (messages.filterMap (rootContrib messages)).Pairwise (· < ·) := by
  rw [List.pairwise_filterMap, List.pairwise_iff_get]
  intro a b hab x hx y hy
  simp only [Option.mem_def] at hx hy
  have hxa : x = a.val := rootContrib_some messages hnd a.val a.isLt x hx
  have hyb : y = b.val := rootContrib_some messages hnd b.val b.isLt y hy
  subst hxa
  subst hyb
  exact hab

theorem pairwise_replySnd (messages : List Message)
    (hnd : (messages.map Message.id).Nodup) :
    ((messages.filterMap (replyContrib messages)).map Prod.snd).Pairwise (· < ·) := by
  rw [List.map_filterMap, List.pairwise_filterMap, List.pairwise_iff_get]
  intro a b hab x hx y hy
  simp only [Option.mem_def] at hx hy
  have hxa : x = a.val := replyContribSnd_some messages hnd a.val a.isLt x hx
  have hyb : y = b.val := replyContribSnd_some messages hnd b.val b.isLt y hy
  subst hxa
  subst hyb
  exact hab

/-- C1 counterexample: on the two-message input sharing id `"x"`, the
first message's node is placed nowhere (the overwritten lookup returns
the second node, which is pushed twice), so not every message's node
lands in exactly one position. -/
theorem buildmessageTree_places_once_counterexample :
    (((buildPlacement dupMsgs).roots ++
        (buildPlacement dupMsgs).replies.map Prod.snd).count 0 = 0) ∧
    (((buildPlacement dupMsgs).roots ++
        (buildPlacement dupMsgs).replies.map Prod.snd).count 1 = 2) := by
  decide

/-- C1 amended: for every flat input sequence whose message ids are
pairwise distinct, `buildmessageTree` places every message's node in
exactly one position — pushed onto the replies list of the node of its
`parentId` when that parent id is truthy and present in the lookup map,
and onto the root list otherwise — and both the root list and the
children pushes preserve the original sequence order.  (Node `i` is the
node created for the message at position `i`.) -/
theorem buildmessageTree_places_once (messages : List Message)
    (hnd : (messages.map Message.id).Nodup) :
    ((buildPlacement messages).roots.Pairwise (· < ·) ∧
     ((buildPlacement messages).replies.map Prod.snd).Pairwise (· < ·)) ∧
    (∀ (i : Nat) (hi : i < messages.length),
      ((buildPlacement messages).roots ++
          (buildPlacement messages).replies.map Prod.snd).count i = 1 ∧
      (∀ p j, (messages.get ⟨i, hi⟩).parentId = some p → p ≠ "" →
          nodeMapGet messages p = some j →
          (buildPlacement messages).replies.count (j, i) = 1 ∧
          i ∉ (buildPlacement messages).roots) ∧
      (parentFound messages (messages.get ⟨i, hi⟩) = false →
          (buildPlacement messages).roots.count i = 1 ∧
          i ∉ (buildPlacement messages).replies.map Prod.snd)) := by
  rw [buildPlacement_roots, buildPlacement_replies]
  refine ⟨⟨pairwise_rootContrib messages hnd, pairwise_replySnd messages hnd⟩, ?_⟩
  intro i hi
  refine ⟨?_, ?_, ?_⟩
  · rw [List.count_append, count_rootContrib messages hnd i hi,
      count_replySnd messages hnd i hi]
    by_cases hp : parentFound messages (messages.get ⟨i, hi⟩) = true
    · rw [if_pos hp, if_pos hp]
    · rw [if_neg hp, if_neg hp]
  · intro p j hpid hpne hnode
    have hp : parentFound messages (messages.get ⟨i, hi⟩) = true := by
      unfold parentFound
      rw [hpid]
      simp [hpne, hnode]
    have hgd : ((messages.get ⟨i, hi⟩).parentId.getD "") = p := by
      rw [hpid]
      rfl
    constructor
    · rw [count_replyContrib messages hnd i hi j]
      rw [if_pos ⟨hp, by rw [hgd, hnode]; rfl⟩]
    · rw [← List.count_eq_zero, count_rootContrib messages hnd i hi, if_pos hp]
  · intro hp
    have hp' : ¬ (parentFound messages (messages.get ⟨i, hi⟩) = true) := by
      rw [hp]
      simp
    constructor
    · rw [count_rootContrib messages hnd i hi, if_neg hp']
    · rw [← List.count_eq_zero, count_replySnd messages hnd i hi, if_neg hp']

/-- C1 amended witness: on the three-message thread, the reply node `1`
is pushed exactly once, under its parent node `0`; node `2` (unresolved
parent id) lands exactly once, in the root list. -/
theorem buildmessageTree_places_once_witness :
    ((exTreeMsgs.map Message.id).Nodup) ∧
    ((buildPlacement exTreeMsgs).roots ++
        (buildPlacement exTreeMsgs).replies.map Prod.snd).count 1 = 1 ∧
    (buildPlacement exTreeMsgs).replies.count (0, 1) = 1 ∧
    1 ∉ (buildPlacement exTreeMsgs).roots ∧
    (buildPlacement exTreeMsgs).roots.count 2 = 1 := by
  have H := buildmessageTree_places_once exTreeMsgs (by decide)
  refine ⟨by decide, (H.2 1 (by decide)).1, ?_, ?_, ?_⟩
  · exact ((H.2 1 (by decide)).2.1 "a" 0 (by decide) (by decide) (by decide)).1
  · exact ((H.2 1 (by decide)).2.1 "a" 0 (by decide) (by decide) (by decide)).2
  · exact ((H.2 2 (by decide)).2.2 (by decide)).1
